import Mathlib

/-!
# Home Assistant notifier (`internal/notif/homeassistant/client.go`)

A shallow embedding of `getLast8Chars` and `Client.Send`, with the pieces of the Go
standard library that `Send` calls on strings (`strings.Split`, `regexp.ReplaceAllString`
for a one-rune character class, `fmt.Sprintf` for the verbs `%s` and `%d`).

A Go string is a sequence of bytes; `len` counts bytes and slicing cuts bytes, while
`regexp` walks the string rune by rune with `utf8.DecodeRuneInString`.
-/

set_option maxRecDepth 100000
set_option maxHeartbeats 2000000

namespace Homeassistant

/-! ## Go strings -/

/-- A Go string: an immutable sequence of bytes. -/
abbrev GoString := List UInt8

/-- The bytes of a string literal (UTF-8, as the Go compiler stores it). -/
def lit (s : String) : GoString := s.toList.flatMap String.utf8EncodeChar

/-- Value of `utf8.RuneError`. -/
def RuneError : Nat := 0xFFFD

/-- Tables `first` and `acceptRanges` of `unicode/utf8` for a lead byte of a multi-byte
sequence: the sequence size and the accepted range of the second byte. `none` for the
lead bytes that are ASCII (`as`) or invalid (`xx`). -/
def leadInfo (b : Nat) : Option (Nat × Nat × Nat) :=
  if 0xC2 ≤ b ∧ b ≤ 0xDF then some (2, 0x80, 0xBF)
  else if b = 0xE0 then some (3, 0xA0, 0xBF)
  else if 0xE1 ≤ b ∧ b ≤ 0xEC then some (3, 0x80, 0xBF)
  else if b = 0xED then some (3, 0x80, 0x9F)
  else if 0xEE ≤ b ∧ b ≤ 0xEF then some (3, 0x80, 0xBF)
  else if b = 0xF0 then some (4, 0x90, 0xBF)
  else if 0xF1 ≤ b ∧ b ≤ 0xF3 then some (4, 0x80, 0xBF)
  else if b = 0xF4 then some (4, 0x80, 0x8F)
  else none

/-- Go `utf8.DecodeRuneInString`: the first rune of `s` and its width in bytes.
`(RuneError, 0)` on the empty string, `(RuneError, 1)` on an invalid encoding.
The masks and shifts of the Go code are written as `%` and `*`. -/
def DecodeRuneInString (s : GoString) : Nat × Nat :=
  match s with
  | [] => (RuneError, 0)
  | s0 :: t =>
    if s0.toNat < 0x80 then (s0.toNat, 1)
    else
      match leadInfo s0.toNat with
      | none => (RuneError, 1)
      | some (sz, lo, hi) =>
        if s.length < sz then (RuneError, 1)
        else
          match t with
          | [] => (RuneError, 1)
          | s1 :: t1 =>
            if s1.toNat < lo ∨ hi < s1.toNat then (RuneError, 1)
            else if sz ≤ 2 then ((s0.toNat % 32) * 64 + s1.toNat % 64, 2)
            else
              match t1 with
              | [] => (RuneError, 1)
              | s2 :: t2 =>
                if s2.toNat < 0x80 ∨ 0xBF < s2.toNat then (RuneError, 1)
                else if sz ≤ 3 then
                  ((s0.toNat % 16) * 4096 + (s1.toNat % 64) * 64 + s2.toNat % 64, 3)
                else
                  match t2 with
                  | [] => (RuneError, 1)
                  | s3 :: _ =>
                    if s3.toNat < 0x80 ∨ 0xBF < s3.toNat then (RuneError, 1)
                    else
                      ((s0.toNat % 8) * 262144 + (s1.toNat % 64) * 4096
                        + (s2.toNat % 64) * 64 + s3.toNat % 64, 4)

/-- The substrings that `for range s` visits, one per rune: the decoding loop of Go,
each invalid byte being a rune of width one. `fuel` bounds the loop. -/
def runeChunksAux : Nat → GoString → List GoString
  | 0, _ => []
  | fuel + 1, s =>
    match s with
    | [] => []
    | _ :: _ =>
      let w := (DecodeRuneInString s).2
      s.take w :: runeChunksAux fuel (s.drop w)

/-- The runes of `s` as substrings (also what `strings.Split(s, "")` returns). -/
def runeChunks (s : GoString) : List GoString := runeChunksAux s.length s

/-- Go `utf8.RuneCountInString`. -/
def RuneCountInString (s : GoString) : Nat := (runeChunks s).length

/-! ## `strings.Split` -/

/-- Go `strings.Index`: the index of the first instance of `sep` in `s`,
`none` for Go's `-1`. -/
def Index (s sep : GoString) : Option Nat :=
  match s with
  | [] => if sep = [] then some 0 else none
  | b :: t => if sep.isPrefixOf (b :: t) then some 0 else (Index t sep).map (· + 1)

/-- The loop of Go `strings.genSplit` (with `sepSave = 0` and no limit): cut at each
instance of `sep` in turn. `fuel` bounds the number of cuts. -/
def genSplit (sep : GoString) : Nat → GoString → List GoString
  | 0, s => [s]
  | fuel + 1, s =>
    match Index s sep with
    | none => [s]
    | some m => s.take m :: genSplit sep fuel (s.drop (m + sep.length))

/-- Go `strings.Split(s, sep)`. With an empty `sep` the string is exploded into its
runes; otherwise at most `len(s)` cuts can happen. -/
def Split (s sep : GoString) : List GoString :=
  if sep = [] then runeChunks s else genSplit sep s.length s

/-! ## `regexp` for a character class -/

/-- The compiled pattern `[^a-zA-Z0-9_-]`: the set of runes it matches. -/
def re (r : Nat) : Bool :=
  !(('a'.toNat ≤ r && r ≤ 'z'.toNat) || ('A'.toNat ≤ r && r ≤ 'Z'.toNat)
    || ('0'.toNat ≤ r && r ≤ '9'.toNat) || r == '_'.toNat || r == '-'.toNat)

/-- The loop of Go `Regexp.ReplaceAllString` for a pattern that is one character class
`cls` and a replacement `repl` without `$`: the input is decoded rune by rune, a rune
in `cls` is a match and is replaced by `repl`, any other rune is copied. -/
def replaceAllAux (cls : Nat → Bool) (repl : GoString) : Nat → GoString → GoString
  | 0, s => s
  | fuel + 1, s =>
    match s with
    | [] => []
    | _ :: _ =>
      let d := DecodeRuneInString s
      if cls d.1 then repl ++ replaceAllAux cls repl fuel (s.drop d.2)
      else s.take d.2 ++ replaceAllAux cls repl fuel (s.drop d.2)

/-- Go `re.ReplaceAllString(src, repl)` for a one-class pattern. -/
def ReplaceAllString (cls : Nat → Bool) (src repl : GoString) : GoString :=
  replaceAllAux cls repl src.length src

/-! ## The notifier -/

/-- Source function `getLast8Chars`. -/
def getLast8Chars (digest : GoString) : GoString :=
  if digest.length ≥ 8 then digest.drop (digest.length - 8) else digest

/-- Local `repoName` of `Send`: `strings.Split(strings.Split(imageStr, ":")[0], "@")[0]`.
`none` stands for an index-out-of-range panic. -/
def repoName (imageStr : GoString) : Option GoString :=
  match (Split imageStr (lit ":"))[0]? with
  | none => none
  | some h => (Split h (lit "@"))[0]?

/-- Local `extractedName` of `Send`: `parts[len(parts)-1]` for
`parts := strings.Split(repoName, "/")`. `none` stands for a panic. -/
def extractedName (repo : GoString) : Option GoString :=
  let parts := Split repo (lit "/")
  if parts.length = 0 then none else parts[parts.length - 1]?

/-- Local `sanitizedImage` of `Send`. -/
def sanitizedImage (repo : GoString) : GoString :=
  ReplaceAllString re repo (lit "-")

/-! ### `fmt.Sprintf` -/

/-- An operand of `fmt.Sprintf`: a Go `string` or a Go `int`. -/
inductive Arg where
  | str (v : GoString)
  | int (v : Int)

/-- Go `fmt.Sprintf` for formats whose verbs are `%s` on a string operand and `%d` on an
int operand, the only ones `Send` uses: the verb is replaced by the operand (an int in
decimal), every other byte is copied. Other verbs are not interpreted. -/
def Sprintf : GoString → List Arg → GoString
  | [], _ => []
  | [b], _ => [b]
  | b :: v :: rest, args =>
    if b = 0x25 ∧ v = 0x73 then
      match args with
      | Arg.str x :: more => x ++ Sprintf rest more
      | _ => b :: Sprintf (v :: rest) args
    else if b = 0x25 ∧ v = 0x64 then
      match args with
      | Arg.int x :: more => lit (toString x) ++ Sprintf rest more
      | _ => b :: Sprintf (v :: rest) args
    else b :: Sprintf (v :: rest) args

/-! ### Data -/

/-- The fields of `model.NotifHomeAssistant` that `Send` reads. -/
structure NotifHomeAssistant where
  Scheme : GoString
  Host : GoString
  Port : Int
  Username : GoString
  UsernameFile : GoString
  Password : GoString
  PasswordFile : GoString
  Client : GoString
  DiscoveryPrefix : GoString
  Component : GoString
  NodeName : GoString
  QoS : Int

/-- What `Send` reads of a `model.NotifEntry`: `entry.Image.String()`,
`entry.Manifest.Digest.String()` and `entry.PrevManifest.Digest.String()`. -/
structure NotifEntry where
  Image : GoString
  ManifestDigest : GoString
  PrevManifestDigest : GoString

/-- A Go `error` value. -/
structure Error where
  msg : String
  deriving DecidableEq

/-- The value of a `map[string]interface{}` literal whose leaves are strings, with the
entries in the order of the source. -/
inductive Json where
  | str (s : GoString)
  | obj (fields : List (GoString × Json))

/-- The `MQTT.ClientOptions` built by `Send`: `AddBroker`, `SetClientID`, `SetWill`
and the two credential fields. -/
structure ClientOptions where
  Servers : List GoString
  ClientID : GoString
  WillTopic : GoString
  WillPayload : GoString
  WillQos : UInt8
  WillRetained : Bool
  Username : GoString
  Password : GoString
  deriving DecidableEq

/-- Source type `Client`. The handle `mqttClient` is `none` for Go's `nil`, otherwise
the client made by `MQTT.NewClient` from the given options. -/
structure Client where
  cfg : NotifHomeAssistant
  mqttClient : Option ClientOptions

/-- Source function `New`: a notifier without a connection handle. -/
def New (config : NotifHomeAssistant) : Client :=
  { cfg := config, mqttClient := none }

/-- The `payload interface{}` operand of `Publish`: a Go `string` or a `[]byte`. -/
inductive Payload where
  | str (s : GoString)
  | bytes (b : GoString)
  deriving DecidableEq

/-- A call of `Send` to a collaborator. -/
inductive Call where
  | GetSecret (plaintext filename : GoString)
  | Connect
  | Publish (topic : GoString) (qos : UInt8) (retained : Bool) (payload : Payload)
  deriving DecidableEq

/-- The places in `Send` that call a collaborator, in source order. -/
inductive Step where
  | resolveUsername
  | resolvePassword
  | connect
  | publishOnline
  | publishDiscovery
  | publishState
  deriving DecidableEq

/-- One collaborator call made by `Send`: where it is made and what is called. -/
structure Event where
  step : Step
  call : Call
  deriving DecidableEq

/-- What each collaborator call of one `Send` returns if `Send` makes it. For the
tokens, `token.Wait()` blocks until completion and yields `true`, so only
`token.Error()` is recorded (`none` for `nil`). -/
structure Outcomes where
  username : Except Error GoString
  password : Except Error GoString
  connect : Option Error
  online : Option Error
  discovery : Option Error
  state : Option Error

/-- The result of one `Send`: the returned error (`none` for `nil`), the receiver
after the call and the collaborator calls made, in order. -/
structure Result where
  err : Option Error
  client : Client
  trace : List Event

/-- Go conversion `byte(n)` of an `int`. -/
def byte (n : Int) : UInt8 := UInt8.ofNat (n % 256).toNat

/-! ### `Send` -/

/-- Local `availabilityTopic` of `Send`. -/
def availabilityTopic (cfg : NotifHomeAssistant) : GoString :=
  Sprintf (lit "%s/%s/%s/availability")
    [Arg.str cfg.DiscoveryPrefix, Arg.str cfg.Component, Arg.str cfg.NodeName]

/-- Local `discoveryTopic` of `Send`. -/
def discoveryTopic (cfg : NotifHomeAssistant) (sanitized : GoString) : GoString :=
  Sprintf (lit "%s/%s/%s/%s/config")
    [Arg.str cfg.DiscoveryPrefix, Arg.str cfg.Component, Arg.str cfg.NodeName,
      Arg.str sanitized]

/-- Local `stateTopic` of `Send`. -/
def stateTopic (cfg : NotifHomeAssistant) (sanitized : GoString) : GoString :=
  Sprintf (lit "%s/%s/%s/%s/state")
    [Arg.str cfg.DiscoveryPrefix, Arg.str cfg.Component, Arg.str cfg.NodeName,
      Arg.str sanitized]

/-- Local `broker` of `Send`. -/
def broker (cfg : NotifHomeAssistant) : GoString :=
  Sprintf (lit "%s://%s:%d") [Arg.str cfg.Scheme, Arg.str cfg.Host, Arg.int cfg.Port]

/-- Local `opts` of `Send`. -/
def clientOptions (cfg : NotifHomeAssistant) (username password : GoString) :
    ClientOptions :=
  { Servers := [broker cfg]
    ClientID := cfg.Client
    WillTopic := availabilityTopic cfg
    WillPayload := lit "offline"
    WillQos := byte cfg.QoS
    WillRetained := true
    Username := username
    Password := password }

/-- Local `discoveryPayload` of `Send`. -/
def discoveryPayload (cfg : NotifHomeAssistant) (imageStr extracted sanitized : GoString) :
    Json :=
  Json.obj
    [ (lit "state_topic", Json.str (stateTopic cfg sanitized)),
      (lit "name", Json.str extracted),
      (lit "title", Json.str imageStr),
      (lit "unique_id", Json.str sanitized),
      (lit "availability_topic", Json.str (availabilityTopic cfg)),
      (lit "icon", Json.str (lit "mdi:docker")),
      (lit "device", Json.obj
        [ (lit "identifiers", Json.str cfg.NodeName),
          (lit "name", Json.str cfg.NodeName),
          (lit "manufacturer", Json.str (lit "DIUN - Docker Image Update Notifier")) ]) ]

/-- Local `latestVersion` of `Send`. -/
def latestVersion (entry : NotifEntry) : GoString :=
  getLast8Chars entry.ManifestDigest

/-- Local `installedVersion` of `Send`. -/
def installedVersion (entry : NotifEntry) : GoString :=
  if entry.PrevManifestDigest.length > 0 then getLast8Chars entry.PrevManifestDigest
  else latestVersion entry

/-- Local `statePayload` of `Send`. -/
def statePayload (entry : NotifEntry) : Json :=
  Json.obj
    [ (lit "installed_version", Json.str (installedVersion entry)),
      (lit "latest_version", Json.str (latestVersion entry)) ]

/-- Source method `Client.Send`. `Marshal` is `json.Marshal`, `o` holds what the
collaborators return in this call; the result is `none` if `Send` panics. -/
def Send (Marshal : Json → Except Error GoString) (c : Client) (entry : NotifEntry)
    (o : Outcomes) : Option Result :=
  let t0 := [Event.mk Step.resolveUsername (Call.GetSecret c.cfg.Username c.cfg.UsernameFile)]
  match o.username with
  | Except.error err => some ⟨some err, c, t0⟩
  | Except.ok username =>
    let t1 := t0 ++
      [Event.mk Step.resolvePassword (Call.GetSecret c.cfg.Password c.cfg.PasswordFile)]
    match o.password with
    | Except.error err => some ⟨some err, c, t1⟩
    | Except.ok password =>
      let imageStr := entry.Image
      match repoName imageStr with
      | none => none
      | some repo =>
        match extractedName repo with
        | none => none
        | some extracted =>
          let sanitized := sanitizedImage repo
          let opts := clientOptions c.cfg username password
          let qos := byte c.cfg.QoS
          let conn : Option Error × Client × List Event :=
            match c.mqttClient with
            | some _ => (none, c, t1)
            | none =>
              let c1 : Client := { c with mqttClient := some opts }
              let t2 := t1 ++ [Event.mk Step.connect Call.Connect]
              match o.connect with
              | some err => (some err, c1, t2)
              | none =>
                let t3 := t2 ++ [Event.mk Step.publishOnline
                  (Call.Publish (availabilityTopic c.cfg) qos true (Payload.str (lit "online")))]
                match o.online with
                | some err => (some err, c1, t3)
                | none => (none, c1, t3)
          match conn with
          | (some err, c1, t) => some ⟨some err, c1, t⟩
          | (none, c1, t) =>
            match Marshal (discoveryPayload c.cfg imageStr extracted sanitized) with
            | Except.error err => some ⟨some err, c1, t⟩
            | Except.ok payloadBytes =>
              let t4 := t ++ [Event.mk Step.publishDiscovery
                (Call.Publish (discoveryTopic c.cfg sanitized) qos true
                  (Payload.bytes payloadBytes))]
              match o.discovery with
              | some err => some ⟨some err, c1, t4⟩
              | none =>
                match Marshal (statePayload entry) with
                | Except.error err => some ⟨some err, c1, t4⟩
                | Except.ok statePayloadBytes =>
                  let t5 := t4 ++ [Event.mk Step.publishState
                    (Call.Publish (stateTopic c.cfg sanitized) qos true
                      (Payload.bytes statePayloadBytes))]
                  match o.state with
                  | some err => some ⟨some err, c1, t5⟩
                  | none => some ⟨none, c1, t5⟩

/-- Sequential `Send` calls on one instance: each call starts from the receiver the
previous one left. -/
def SendSeq (Marshal : Json → Except Error GoString) :
    Client → List (NotifEntry × Outcomes) → Option (List Result)
  | _, [] => some []
  | c, (entry, o) :: rest =>
    match Send Marshal c entry o with
    | none => none
    | some r =>
      match SendSeq Marshal r.client rest with
      | none => none
      | some rs => some (r :: rs)

/-! ### Definitions used to state the properties -/

/-- The repository path `Send` computes for an image reference. -/
def repoOf (imageStr : GoString) : GoString := (repoName imageStr).getD []

/-- The display name `Send` computes for an image reference. -/
def nameOf (imageStr : GoString) : GoString := (extractedName (repoOf imageStr)).getD []

/-- The sanitized id `Send` computes for an image reference. -/
def idOf (imageStr : GoString) : GoString := sanitizedImage (repoOf imageStr)

/-- The error a step returns in this call, `none` if it succeeds. -/
def Outcomes.failure (o : Outcomes) : Step → Option Error
  | Step.resolveUsername =>
    match o.username with
    | Except.error err => some err
    | Except.ok _ => none
  | Step.resolvePassword =>
    match o.password with
    | Except.error err => some err
    | Except.ok _ => none
  | Step.connect => o.connect
  | Step.publishOnline => o.online
  | Step.publishDiscovery => o.discovery
  | Step.publishState => o.state

/-- The step sequence of a `Send` call: connect and the `"online"` publish only when
the handle is absent. -/
def plan (c : Client) : List Step :=
  [Step.resolveUsername, Step.resolvePassword]
    ++ (if c.mqttClient.isNone then [Step.connect, Step.publishOnline] else [])
    ++ [Step.publishDiscovery, Step.publishState]

/-- Running a step sequence fail-fast: the steps attempted (up to and including the
first one that fails) and the error returned (that of the first failing step). -/
def failFast (o : Outcomes) : List Step → List Step × Option Error
  | [] => ([], none)
  | s :: rest =>
    match o.failure s with
    | some err => ([s], some err)
    | none => (s :: (failFast o rest).1, (failFast o rest).2)

/-- The value of a top-level field of a JSON object. -/
def Json.lookup (key : GoString) : Json → Option Json
  | Json.str _ => none
  | Json.obj fields => (fields.find? (fun kv => kv.1 == key)).map (fun kv => kv.2)

/-- A transport call that is a connect. -/
def Call.isConnect : Call → Bool
  | Call.Connect => true
  | _ => false

/-- A transport call that is a publish. -/
def Call.isPublish : Call → Bool
  | Call.Publish _ _ _ _ => true
  | _ => false

/-- A transport call that publishes the string `"online"`. -/
def Call.isOnline : Call → Bool
  | Call.Publish _ _ _ (Payload.str s) => s == lit "online"
  | _ => false

/-- The number of connects the transport sees in one call. -/
def Result.connects (r : Result) : Nat :=
  (r.trace.filter (fun ev => ev.call.isConnect)).length

/-- The call makes neither a connect nor an `"online"` publish. -/
def Result.reuses (r : Result) : Prop :=
  ∀ ev ∈ r.trace, ev.step ≠ Step.connect ∧ ev.step ≠ Step.publishOnline
    ∧ ev.call.isConnect = false ∧ ev.call.isOnline = false

/-- The calls of a `Send` that reuses the handle and in which every step succeeds, `db`
and `sb` being the marshalled discovery and state payloads. -/
def reuseTrace (cfg : NotifHomeAssistant) (entry : NotifEntry) (db sb : GoString) :
    List Event :=
  [⟨Step.resolveUsername, Call.GetSecret cfg.Username cfg.UsernameFile⟩,
    ⟨Step.resolvePassword, Call.GetSecret cfg.Password cfg.PasswordFile⟩,
    ⟨Step.publishDiscovery, Call.Publish
      (discoveryTopic cfg (sanitizedImage (repoOf entry.Image))) (byte cfg.QoS) true
      (Payload.bytes db)⟩,
    ⟨Step.publishState, Call.Publish
      (stateTopic cfg (sanitizedImage (repoOf entry.Image))) (byte cfg.QoS) true
      (Payload.bytes sb)⟩]

/-- The calls of a `Send` without a handle in which every step succeeds. -/
def firstTrace (cfg : NotifHomeAssistant) (entry : NotifEntry) (db sb : GoString) :
    List Event :=
  [⟨Step.resolveUsername, Call.GetSecret cfg.Username cfg.UsernameFile⟩,
    ⟨Step.resolvePassword, Call.GetSecret cfg.Password cfg.PasswordFile⟩,
    ⟨Step.connect, Call.Connect⟩,
    ⟨Step.publishOnline, Call.Publish (availabilityTopic cfg) (byte cfg.QoS) true
      (Payload.str (lit "online"))⟩,
    ⟨Step.publishDiscovery, Call.Publish
      (discoveryTopic cfg (sanitizedImage (repoOf entry.Image))) (byte cfg.QoS) true
      (Payload.bytes db)⟩,
    ⟨Step.publishState, Call.Publish
      (stateTopic cfg (sanitizedImage (repoOf entry.Image))) (byte cfg.QoS) true
      (Payload.bytes sb)⟩]

/-! ### Sample data -/

/-- A configuration with the default discovery settings. -/
def cfg0 : NotifHomeAssistant :=
  { Scheme := lit "tcp", Host := lit "broker", Port := 1883, Username := lit "u",
    UsernameFile := [], Password := lit "p", PasswordFile := [], Client := lit "diun",
    DiscoveryPrefix := lit "homeassistant", Component := lit "update", NodeName := lit "diun",
    QoS := 1 }

/-- A first-seen image: no previous digest. -/
def entry0 : NotifEntry :=
  { Image := lit "docker.io/library/nginx:latest",
    ManifestDigest := lit "sha256:1111111122222222", PrevManifestDigest := [] }

/-- An updated image: a previous and a new digest. -/
def entry1 : NotifEntry :=
  { Image := lit "ghcr.io/crazy-max/diun:4.28",
    ManifestDigest := lit "sha256:aaaaaaaabbbbbbbb",
    PrevManifestDigest := lit "sha256:ccccccccdddddddd" }

/-- Outcomes of a call in which the connect fails. -/
def connectFails : Outcomes :=
  { username := Except.ok (lit "u"), password := Except.ok (lit "p"),
    connect := some ⟨"connection refused"⟩, online := none, discovery := none, state := none }

/-- Outcomes of a call in which the password cannot be resolved. -/
def passwordFails : Outcomes :=
  { username := Except.ok (lit "u"), password := Except.error ⟨"no such file"⟩,
    connect := none, online := none, discovery := none, state := none }

/-- Outcomes of a call in which the discovery publish fails. -/
def discoveryFails : Outcomes :=
  { username := Except.ok (lit "u"), password := Except.ok (lit "p"), connect := none,
    online := none, discovery := some ⟨"not connected"⟩, state := none }

/-- A stand-in for `json.Marshal` that always succeeds. -/
def marshalStub : Json → Except Error GoString := fun _ => Except.ok (lit "json")

/-- Outcomes of a call in which every step succeeds. -/
def okOutcomes : Outcomes :=
  { username := Except.ok (lit "u"), password := Except.ok (lit "p"), connect := none,
    online := none, discovery := none, state := none }

/-- The byte of an ASCII character. -/
def ch (c : Char) : UInt8 := UInt8.ofNat c.toNat

/-- The bytes of the class `[A-Za-z0-9_-]`, listed. -/
def isIdByte (b : UInt8) : Bool :=
  (lit "abcdefghijklmnopqrstuvwxyzABCDEFGHIJKLMNOPQRSTUVWXYZ0123456789_-").contains b

/-- What the sanitizer is specified to do with one rune of the repository path, given as
its substring: a rune of `[A-Za-z0-9_-]` (one byte) stays, any other becomes one `-`. -/
def substRune (c : GoString) : UInt8 :=
  match c with
  | [b] => if isIdByte b then b else ch '-'
  | _ => ch '-'

/-! ## Decoding lemmas -/

theorem leadInfo_some {b sz lo hi : Nat} (h : leadInfo b = some (sz, lo, hi)) :
    0xC2 ≤ b ∧ b ≤ 0xF4 ∧ 2 ≤ sz ∧ sz ≤ 4 ∧ 0x80 ≤ lo ∧ hi ≤ 0xBF
      ∧ (sz = 2 → b ≤ 0xDF) ∧ (sz = 3 → 0xE0 ≤ b ∧ b ≤ 0xEF) ∧ (sz = 4 → 0xF0 ≤ b)
      ∧ (b = 0xE0 → lo = 0xA0) ∧ (b = 0xF0 → lo = 0x90) := by
  unfold leadInfo at h
  split_ifs at h <;> simp at h <;> omega

theorem re_false_lt {r : Nat} (h : re r = false) : r < 0x80 := by
  simp [re] at h
  omega

theorem re_RuneError : re RuneError = true := by decide

theorem decode_width (b : UInt8) (t : GoString) :
    1 ≤ (DecodeRuneInString (b :: t)).2
      ∧ (DecodeRuneInString (b :: t)).2 ≤ (b :: t).length := by
  unfold DecodeRuneInString
  repeat' split
  all_goals simp_all

theorem decode_rune_ge (b : UInt8) (t : GoString) (hb : ¬ b.toNat < 0x80) :
    0x80 ≤ (DecodeRuneInString (b :: t)).1 := by
  unfold DecodeRuneInString
  simp only [hb, if_false]
  cases hl : leadInfo b.toNat with
  | none => simp [RuneError]
  | some x =>
    obtain ⟨sz, lo, hi⟩ := x
    have hi := leadInfo_some hl
    simp only []
    repeat' split
    all_goals simp only [RuneError]
    all_goals omega

theorem decode_of_re_false (b : UInt8) (t : GoString)
    (h : re (DecodeRuneInString (b :: t)).1 = false) :
    DecodeRuneInString (b :: t) = (b.toNat, 1) := by
  by_cases hb : b.toNat < 0x80
  · simp [DecodeRuneInString, hb]
  · have h1 := decode_rune_ge b t hb
    have h2 := re_false_lt h
    omega

theorem lit_dash : lit "-" = [0x2D] := by decide

theorem ch_dash : ch '-' = 0x2D := by decide

theorem ch_colon : ch ':' = 0x3A := by decide

theorem ch_at : ch '@' = 0x40 := by decide

theorem ch_slash : ch '/' = 0x2F := by decide

theorem ofNat_toNat (b : UInt8) : UInt8.ofNat b.toNat = b := by
  cases b with
  | mk v => simp [UInt8.ofNat, UInt8.toNat]

theorem re_isIdByte_fin :
    ∀ n : Fin 256, re n.val = false ↔ isIdByte (UInt8.ofNat n.val) = true := by
  decide

theorem re_isIdByte (b : UInt8) : re b.toNat = false ↔ isIdByte b = true := by
  have h := re_isIdByte_fin ⟨b.toNat, UInt8.toNat_lt_size b⟩
  simp only [ofNat_toNat] at h
  exact h

theorem re_true_iff (b : UInt8) : re b.toNat = true ↔ isIdByte b = false := by
  have h := re_isIdByte b
  cases h1 : re b.toNat <;> cases h2 : isIdByte b <;> simp_all

theorem isIdByte_substRune (c : GoString) : isIdByte (substRune c) = true := by
  unfold substRune
  split
  · split
    · assumption
    · decide
  · decide

theorem runeChunksAux_flatten (fuel : Nat) (s : GoString) (h : s.length ≤ fuel) :
    (runeChunksAux fuel s).flatten = s := by
  induction fuel generalizing s with
  | zero =>
    have : s = [] := List.length_eq_zero.mp (by omega)
    subst this
    simp [runeChunksAux]
  | succ n ih =>
    cases s with
    | nil => simp [runeChunksAux]
    | cons b t =>
      have hw := decode_width b t
      simp only [runeChunksAux, List.flatten_cons]
      rw [ih]
      · exact List.take_append_drop _ _
      · simp only [List.length_drop, List.length_cons] at *
        omega

theorem replaceAllAux_eq (fuel : Nat) (s : GoString) (h : s.length ≤ fuel) :
    replaceAllAux re [0x2D] fuel s = (runeChunksAux fuel s).map substRune := by
  induction fuel generalizing s with
  | zero =>
    have : s = [] := List.length_eq_zero.mp (by omega)
    subst this
    simp [runeChunksAux, replaceAllAux]
  | succ n ih =>
    cases s with
    | nil => simp [runeChunksAux, replaceAllAux]
    | cons b t =>
      have hw := decode_width b t
      have hlen : ((b :: t).drop (DecodeRuneInString (b :: t)).2).length ≤ n := by
        simp only [List.length_drop, List.length_cons] at *
        omega
      simp only [runeChunksAux, replaceAllAux, List.map_cons]
      rw [ih _ hlen]
      by_cases hre : re (DecodeRuneInString (b :: t)).1 = true
      · simp only [hre, if_true, List.singleton_append, List.cons.injEq, and_true]
        have hb : re b.toNat = true := by
          by_cases hb : b.toNat < 0x80
          · simpa [DecodeRuneInString, hb] using hre
          · by_contra hc
            simp only [Bool.not_eq_true] at hc
            exact hb (re_false_lt hc)
        obtain ⟨k, hk⟩ : ∃ k, (DecodeRuneInString (b :: t)).2 = k + 1 :=
          ⟨(DecodeRuneInString (b :: t)).2 - 1, by omega⟩
        rw [hk, List.take_succ_cons]
        rw [re_true_iff] at hb
        unfold substRune
        split
        · rename_i b1 heq
          simp only [List.cons.injEq] at heq
          rw [← heq.1, hb]
          simp [ch_dash]
        · exact ch_dash.symm
      · simp only [Bool.not_eq_true] at hre
        have hd := decode_of_re_false b t hre
        rw [hd] at hre
        simp only at hre
        have hid := (re_isIdByte b).mp hre
        simp [hd, hre, hid, substRune]

theorem runeChunksAux_ascii (fuel : Nat) (s : GoString) (h : s.length ≤ fuel)
    (ha : ∀ b ∈ s, b.toNat < 0x80) : runeChunksAux fuel s = s.map (fun b => [b]) := by
  induction fuel generalizing s with
  | zero =>
    have : s = [] := List.length_eq_zero.mp (by omega)
    subst this
    simp [runeChunksAux]
  | succ n ih =>
    cases s with
    | nil => simp [runeChunksAux]
    | cons b t =>
      have hb : b.toNat < 0x80 := ha b (by simp)
      have ht : ∀ x ∈ t, x.toNat < 0x80 := fun x hx => ha x (by simp [hx])
      have hl : t.length ≤ n := by simpa using h
      simp [runeChunksAux, DecodeRuneInString, hb, ih t hl ht]

theorem runeChunksAux_length_le (fuel : Nat) (s : GoString) :
    (runeChunksAux fuel s).length ≤ s.length := by
  induction fuel generalizing s with
  | zero => simp [runeChunksAux]
  | succ n ih =>
    cases s with
    | nil => simp [runeChunksAux]
    | cons b t =>
      have hw := decode_width b t
      have h := ih ((b :: t).drop (DecodeRuneInString (b :: t)).2)
      simp only [runeChunksAux, List.length_cons, List.length_drop] at *
      omega

theorem runeCount_le_length (s : GoString) : RuneCountInString s ≤ s.length :=
  runeChunksAux_length_le _ _

theorem sanitizedImage_eq (p : GoString) :
    sanitizedImage p = (runeChunks p).map substRune := by
  unfold sanitizedImage ReplaceAllString runeChunks
  rw [lit_dash]
  exact replaceAllAux_eq _ _ (le_refl _)

theorem sanitizedImage_allowed (p : GoString) :
    ∀ b ∈ sanitizedImage p, isIdByte b = true := by
  intro b hb
  rw [sanitizedImage_eq, List.mem_map] at hb
  obtain ⟨c, _, rfl⟩ := hb
  exact isIdByte_substRune c

theorem runeCount_of_ascii (s : GoString) (h : ∀ b ∈ s, b.toNat < 0x80) :
    RuneCountInString s = s.length := by
  unfold RuneCountInString runeChunks
  rw [runeChunksAux_ascii _ _ (le_refl _) h]
  simp

theorem sanitizedImage_ascii (p : GoString) (h : ∀ b ∈ p, b.toNat < 0x80) :
    sanitizedImage p = p.map (fun b => if isIdByte b then b else ch '-') := by
  rw [sanitizedImage_eq]
  unfold runeChunks
  rw [runeChunksAux_ascii _ _ (le_refl _) h, List.map_map]
  rfl

/-! ## Splitting lemmas -/

theorem Index_single (c : UInt8) (s : GoString) :
    Index s [c] = if c ∈ s then some (s.takeWhile (· != c)).length else none := by
  induction s with
  | nil => simp [Index]
  | cons b t ih =>
    by_cases hcb : c = b
    · subst hcb
      simp [Index, List.isPrefixOf]
    · have hbc : b ≠ c := fun h => hcb h.symm
      simp [Index, List.isPrefixOf, hcb, hbc, ih]

theorem take_length_takeWhile (q : UInt8 → Bool) (s : GoString) :
    s.take (s.takeWhile q).length = s.takeWhile q := by
  induction s with
  | nil => simp
  | cons b t ih =>
    by_cases hq : q b = true
    · simp [List.takeWhile, hq, ih]
    · simp [List.takeWhile, hq]

theorem split_at_first (c : UInt8) (s : GoString) (h : c ∈ s) :
    s = s.takeWhile (· != c) ++ c :: s.drop ((s.takeWhile (· != c)).length + 1) := by
  induction s with
  | nil => simp at h
  | cons b t ih =>
    by_cases hbc : b = c
    · subst hbc
      simp [List.takeWhile]
    · have hc : c ∈ t := by
        rcases List.mem_cons.mp h with h1 | h1
        · exact absurd h1.symm hbc
        · exact h1
      have hne : (b != c) = true := by simpa using hbc
      have htw : List.takeWhile (fun x => x != c) (b :: t)
          = b :: List.takeWhile (fun x => x != c) t := by
        rw [List.takeWhile_cons]
        simp only [hne, if_true]
      rw [htw]
      simpa using ih hc

theorem Index_single_some {c : UInt8} {s : GoString} {m : Nat} (h : Index s [c] = some m) :
    s.take m = s.takeWhile (· != c) ∧ c ∉ s.take m ∧ s = s.take m ++ c :: s.drop (m + 1) := by
  rw [Index_single] at h
  split at h
  · rename_i hmem
    simp only [Option.some.injEq] at h
    subst h
    rw [take_length_takeWhile]
    refine ⟨rfl, ?_, ?_⟩
    · intro hc
      have := List.mem_takeWhile_imp hc
      simp at this
    · exact split_at_first c s hmem
  · simp at h

theorem Index_single_none {c : UInt8} {s : GoString} (h : Index s [c] = none) : c ∉ s := by
  rw [Index_single] at h
  split at h
  · simp at h
  · assumption

theorem lit_colon : lit ":" = [0x3A] := by decide

theorem lit_at : lit "@" = [0x40] := by decide

theorem lit_slash : lit "/" = [0x2F] := by decide

theorem Split_single (c : UInt8) (s : GoString) :
    Split s [c] = genSplit [c] s.length s := by
  simp [Split]

theorem Split_single_head (c : UInt8) (s : GoString) :
    (Split s [c])[0]? = some (s.takeWhile (· != c)) := by
  rw [Split_single]
  cases s with
  | nil => simp [genSplit]
  | cons b t =>
    simp only [List.length_cons, genSplit]
    cases h : Index (b :: t) [c] with
    | none =>
      have hn := Index_single_none h
      have : List.takeWhile (· != c) (b :: t) = b :: t := by
        rw [List.takeWhile_eq_self_iff]
        intro x hx
        have : x ≠ c := fun hxc => hn (hxc ▸ hx)
        simpa using this
      simp [this]
    | some m => simp [(Index_single_some h).1]

theorem repoName_eq (s : GoString) :
    repoName s = some (s.takeWhile (fun b => b != 0x3A && b != 0x40)) := by
  unfold repoName
  rw [lit_colon, lit_at, Split_single_head]
  simp only []
  rw [Split_single_head, List.takeWhile_takeWhile]
  congr 2
  funext b
  rw [Bool.eq_iff_iff]
  simp [and_comm]

theorem genSplit_single_last (c : UInt8) (fuel : Nat) (s : GoString) (h : s.length ≤ fuel) :
    ∃ n, (genSplit [c] fuel s).getLast? = some n ∧ c ∉ n
      ∧ ((c ∉ s ∧ s = n) ∨ ∃ pre, s = pre ++ c :: n) := by
  induction fuel generalizing s with
  | zero =>
    have : s = [] := List.length_eq_zero.mp (by omega)
    subst this
    exact ⟨[], by simp [genSplit]⟩
  | succ k ih =>
    simp only [genSplit]
    cases hI : Index s [c] with
    | none =>
      have hn := Index_single_none hI
      exact ⟨s, by simp, hn, Or.inl ⟨hn, rfl⟩⟩
    | some m =>
      obtain ⟨_, _, hs⟩ := Index_single_some hI
      have hlen : (s.drop (m + 1)).length ≤ k := by
        simp only [List.length_drop]
        omega
      obtain ⟨n, hlast, hcn, hor⟩ := ih (s.drop (m + 1)) hlen
      refine ⟨n, ?_, hcn, Or.inr ?_⟩
      · simp only [List.length_singleton]
        rw [List.getLast?_cons, hlast]
        simp
      · rcases hor with ⟨_, h1⟩ | ⟨pre, h1⟩
        · exact ⟨s.take m, by rw [← h1]; exact hs⟩
        · refine ⟨s.take m ++ c :: pre, ?_⟩
          rw [List.append_assoc, List.cons_append, ← h1]
          exact hs

theorem extractedName_spec (r : GoString) :
    ∃ n, extractedName r = some n ∧ (0x2F : UInt8) ∉ n
      ∧ (((0x2F : UInt8) ∉ r ∧ r = n) ∨ ∃ pre, r = pre ++ 0x2F :: n) := by
  obtain ⟨n, hlast, hn, hor⟩ := genSplit_single_last 0x2F r.length r (le_refl _)
  refine ⟨n, ?_, hn, hor⟩
  unfold extractedName
  rw [lit_slash, Split_single]
  simp only []
  rw [← List.getLast?_eq_getElem?, hlast]
  have : (genSplit [0x2F] r.length r).length ≠ 0 := by
    intro h0
    rw [List.length_eq_zero] at h0
    rw [h0] at hlast
    simp at hlast
  simp [this]

theorem availabilityTopic_eq (cfg : NotifHomeAssistant) :
    availabilityTopic cfg
      = cfg.DiscoveryPrefix ++ (lit "/" ++ (cfg.Component ++ (lit "/" ++ (cfg.NodeName
          ++ lit "/availability")))) := by
  rfl

theorem discoveryTopic_eq (cfg : NotifHomeAssistant) (i : GoString) :
    discoveryTopic cfg i
      = cfg.DiscoveryPrefix ++ (lit "/" ++ (cfg.Component ++ (lit "/" ++ (cfg.NodeName
          ++ (lit "/" ++ (i ++ lit "/config")))))) := by
  rfl

theorem stateTopic_eq (cfg : NotifHomeAssistant) (i : GoString) :
    stateTopic cfg i
      = cfg.DiscoveryPrefix ++ (lit "/" ++ (cfg.Component ++ (lit "/" ++ (cfg.NodeName
          ++ (lit "/" ++ (i ++ lit "/state")))))) := by
  rfl

/-! ## Lemmas on `Send` -/

theorem repoName_some (s : GoString) : repoName s = some (repoOf s) := by
  simp [repoOf, repoName_eq]

theorem extractedName_some (s : GoString) :
    extractedName (repoOf s) = some (nameOf s) := by
  obtain ⟨n, hn, _⟩ := extractedName_spec (repoOf s)
  simp [nameOf, hn]

theorem takeWhile_append_stop (q : UInt8 → Bool) (P rest : GoString) (y : UInt8)
    (hP : ∀ x ∈ P, q x = true) (hy : q y = false) :
    List.takeWhile q (P ++ y :: rest) = P := by
  induction P with
  | nil => simp [List.takeWhile_cons, hy]
  | cons b t ih =>
    have hb : q b = true := hP b (by simp)
    have ht : ∀ x ∈ t, q x = true := fun x hx => hP x (by simp [hx])
    simp [List.takeWhile_cons, hb, ih ht]

theorem takeWhile_all (q : UInt8 → Bool) (P : GoString) (hP : ∀ x ∈ P, q x = true) :
    List.takeWhile q P = P := by
  rw [List.takeWhile_eq_self_iff]
  exact hP

theorem prefix_takeWhile (q : UInt8 → Bool) (s x : GoString) (hx : x <+: s)
    (hq : ∀ b ∈ x, q b = true) : x <+: List.takeWhile q s := by
  induction s generalizing x with
  | nil =>
    have : x = [] := List.prefix_nil.mp hx
    subst this
    simp
  | cons b t ih =>
    cases x with
    | nil => simp
    | cons a u =>
      rw [List.cons_prefix_cons] at hx
      obtain ⟨rfl, hu⟩ := hx
      have ha : q a = true := hq a (by simp)
      have hu2 : ∀ b ∈ u, q b = true := fun b hb => hq b (by simp [hb])
      rw [List.takeWhile_cons]
      simp only [ha, if_true, List.cons_prefix_cons, true_and]
      exact ih u hu hu2

theorem stop_pred (b : UInt8) :
    (b != 0x3A && b != 0x40) = true ↔ b ≠ ch ':' ∧ b ≠ ch '@' := by
  rw [ch_colon, ch_at]
  simp

theorem stop_pred_of_not_mem (P : GoString) (h1 : ch ':' ∉ P) (h2 : ch '@' ∉ P) :
    ∀ x ∈ P, (x != 0x3A && x != 0x40) = true := by
  intro x hx
  rw [stop_pred]
  exact ⟨fun h => h1 (h ▸ hx), fun h => h2 (h ▸ hx)⟩

theorem Send_step (Marshal : Json → Except Error GoString) (c : Client)
    (entry : NotifEntry) (o : Outcomes) :
    ∃ r, Send Marshal c entry o = some r
      ∧ r.connects ≤ 1
      ∧ ((r.connects = 1 ∨ Step.connect ∈ r.trace.map Event.step) →
          r.client.mqttClient ≠ none)
      ∧ (c.mqttClient ≠ none → r.client = c ∧ r.reuses) := by
  have hr := repoName_some entry.Image
  have hn := extractedName_some entry.Image
  obtain ⟨cfg, h⟩ := c
  obtain ⟨u, p, cn, onl, d, st⟩ := o
  cases u with
  | error e => simp [Send, Result.connects, Result.reuses, Call.isConnect, Call.isOnline]
  | ok u =>
    cases p with
    | error e => simp [Send, Result.connects, Result.reuses, Call.isConnect, Call.isOnline]
    | ok p =>
      cases h with
      | some opts =>
        cases hd : Marshal (discoveryPayload cfg entry.Image (nameOf entry.Image)
            (sanitizedImage (repoOf entry.Image))) <;>
          cases hs : Marshal (statePayload entry) <;> cases d <;> cases st <;>
          simp [Send, hr, hn, hd, hs, Result.connects, Result.reuses, Call.isConnect,
            Call.isOnline]
      | none =>
        cases cn with
        | some e => simp [Send, hr, hn, Result.connects, Call.isConnect]
        | none =>
          cases onl with
          | some e => simp [Send, hr, hn, Result.connects, Call.isConnect]
          | none =>
            cases hd : Marshal (discoveryPayload cfg entry.Image (nameOf entry.Image)
                (sanitizedImage (repoOf entry.Image))) <;>
              cases hs : Marshal (statePayload entry) <;> cases d <;> cases st <;>
              simp [Send, hr, hn, hd, hs, Result.connects, Call.isConnect]

theorem connects_zero_of_reuses (r : Result) (h : r.reuses) : r.connects = 0 := by
  unfold Result.connects
  rw [List.length_eq_zero, List.filter_eq_nil_iff]
  intro ev hev
  simp [(h ev hev).2.2.1]

theorem connects_sum_zero (rs : List Result) (h : ∀ r ∈ rs, r.reuses) :
    (rs.map Result.connects).sum = 0 := by
  induction rs with
  | nil => simp
  | cons r t ih =>
    have h1 := connects_zero_of_reuses r (h r (by simp))
    have h2 := ih (fun x hx => h x (by simp [hx]))
    simp [h1, h2]

theorem Send_first_ok (Marshal : Json → Except Error GoString) (cfg : NotifHomeAssistant)
    (entry : NotifEntry) (u p db sb : GoString)
    (hd : Marshal (discoveryPayload cfg entry.Image (nameOf entry.Image)
      (sanitizedImage (repoOf entry.Image))) = Except.ok db)
    (hs : Marshal (statePayload entry) = Except.ok sb) :
    Send Marshal ⟨cfg, none⟩ entry ⟨Except.ok u, Except.ok p, none, none, none, none⟩
      = some ⟨none, ⟨cfg, some (clientOptions cfg u p)⟩, firstTrace cfg entry db sb⟩ := by
  simp [Send, firstTrace, repoName_some, extractedName_some, hd, hs]

theorem Send_reuse_ok (Marshal : Json → Except Error GoString) (cfg : NotifHomeAssistant)
    (opts : ClientOptions) (entry : NotifEntry) (u p db sb : GoString)
    (cn onl : Option Error)
    (hd : Marshal (discoveryPayload cfg entry.Image (nameOf entry.Image)
      (sanitizedImage (repoOf entry.Image))) = Except.ok db)
    (hs : Marshal (statePayload entry) = Except.ok sb) :
    Send Marshal ⟨cfg, some opts⟩ entry ⟨Except.ok u, Except.ok p, cn, onl, none, none⟩
      = some ⟨none, ⟨cfg, some opts⟩, reuseTrace cfg entry db sb⟩ := by
  simp [Send, reuseTrace, repoName_some, extractedName_some, hd, hs]

/-! ## The properties -/

/-- C1: the sanitized id is the repository path with every rune outside `[A-Za-z0-9_-]`
replaced by exactly one `-` and every other rune kept in place, so it holds only bytes of
`[A-Za-z0-9_-]` and has as many characters as the path (and as many bytes when the
path is ASCII); `"docker.io/library/nginx"` gives `"docker-io-library-nginx"`. -/
theorem sanitizedImage_one_for_one (p : GoString) :
    (runeChunks p).flatten = p
      ∧ sanitizedImage p = (runeChunks p).map substRune
      ∧ (∀ b ∈ sanitizedImage p, isIdByte b = true)
      ∧ RuneCountInString (sanitizedImage p) = RuneCountInString p
      ∧ (sanitizedImage p).length = RuneCountInString p
      ∧ ((∀ b ∈ p, b.toNat < 0x80) →
          sanitizedImage p = p.map (fun b => if isIdByte b then b else ch '-')
            ∧ (sanitizedImage p).length = p.length)
      ∧ sanitizedImage (lit "docker.io/library/nginx") = lit "docker-io-library-nginx" := by
  have hlen : (sanitizedImage p).length = RuneCountInString p := by
    rw [sanitizedImage_eq, List.length_map]
    rfl
  have hascii : ∀ b ∈ sanitizedImage p, b.toNat < 0x80 := fun b hb =>
    re_false_lt ((re_isIdByte b).mpr (sanitizedImage_allowed p b hb))
  refine ⟨runeChunksAux_flatten _ _ (le_refl _), sanitizedImage_eq p,
    sanitizedImage_allowed p, ?_, hlen, ?_, by decide⟩
  · rw [runeCount_of_ascii _ hascii, hlen]
  · intro h
    refine ⟨sanitizedImage_ascii p h, ?_⟩
    rw [sanitizedImage_ascii p h, List.length_map]

/-- Witness of C1 on an ASCII repository path with a registry host. -/
theorem sanitizedImage_one_for_one_witness :
    sanitizedImage (lit "ghcr.io/a_b/c-d")
        = (lit "ghcr.io/a_b/c-d").map (fun b => if isIdByte b then b else ch '-')
      ∧ (sanitizedImage (lit "ghcr.io/a_b/c-d")).length = (lit "ghcr.io/a_b/c-d").length :=
  (sanitizedImage_one_for_one (lit "ghcr.io/a_b/c-d")).2.2.2.2.2.1 (by decide)

/-- C2: repository-name extraction splits on `:` and then on `@`: the result is the
longest prefix of the reference holding neither `:` nor `@`, so for a path `P` without
them the references `P`, `P:T`, `P@D` and `P:T@D` all give `P`. -/
theorem repoName_longest_prefix :
    (∀ s : GoString, ∃ r, repoName s = some r ∧ r <+: s ∧ ch ':' ∉ r ∧ ch '@' ∉ r
        ∧ ∀ q : GoString, q <+: s → ch ':' ∉ q → ch '@' ∉ q → q <+: r)
      ∧ (∀ P T D : GoString, ch ':' ∉ P → ch '@' ∉ P →
          repoName P = some P
            ∧ repoName (P ++ lit ":" ++ T) = some P
            ∧ repoName (P ++ lit "@" ++ D) = some P
            ∧ repoName (P ++ lit ":" ++ T ++ lit "@" ++ D) = some P)
      ∧ repoName (lit "registry.io/ns/repo:1.2") = some (lit "registry.io/ns/repo")
      ∧ repoName (lit "repo@sha256:abcd") = some (lit "repo")
      ∧ repoName (lit "registry.io/ns/repo:1.2@sha256:abcd")
          = some (lit "registry.io/ns/repo") := by
  refine ⟨?_, ?_, by decide, by decide, by decide⟩
  · intro s
    refine ⟨_, repoName_eq s, List.takeWhile_prefix _, ?_, ?_, ?_⟩
    · intro h
      have hh := List.mem_takeWhile_imp (p := fun b => b != 0x3A && b != 0x40) h
      exact ((stop_pred _).mp hh).1 rfl
    · intro h
      have hh := List.mem_takeWhile_imp (p := fun b => b != 0x3A && b != 0x40) h
      exact ((stop_pred _).mp hh).2 rfl
    · intro q hq h1 h2
      exact prefix_takeWhile _ s q hq (stop_pred_of_not_mem q h1 h2)
  · intro P T D h1 h2
    have hP := stop_pred_of_not_mem P h1 h2
    have hc : ((0x3A : UInt8) != 0x3A && (0x3A : UInt8) != 0x40) = false := by decide
    have ha : ((0x40 : UInt8) != 0x3A && (0x40 : UInt8) != 0x40) = false := by decide
    simp only [repoName_eq, lit_colon, lit_at, List.append_assoc, List.singleton_append,
      List.cons_append]
    refine ⟨?_, ?_, ?_, ?_⟩
    · rw [takeWhile_all _ P hP]
    · rw [takeWhile_append_stop _ P _ _ hP hc]
    · rw [takeWhile_append_stop _ P _ _ hP ha]
    · rw [takeWhile_append_stop _ P _ _ hP hc]

/-- Witness of C2 on the path `ns/repo` with a tag and a digest. -/
theorem repoName_longest_prefix_witness :
    repoName (lit "ns/repo") = some (lit "ns/repo")
      ∧ repoName (lit "ns/repo" ++ lit ":" ++ lit "1.2") = some (lit "ns/repo")
      ∧ repoName (lit "ns/repo" ++ lit "@" ++ lit "sha256:ab") = some (lit "ns/repo")
      ∧ repoName (lit "ns/repo" ++ lit ":" ++ lit "1.2" ++ lit "@" ++ lit "sha256:ab")
          = some (lit "ns/repo") :=
  repoName_longest_prefix.2.1 (lit "ns/repo") (lit "1.2") (lit "sha256:ab")
    (by decide) (by decide)

/-- C6: `getLast8Chars` of a digest of at least 8 bytes is its last 8 bytes, a suffix of
length exactly 8; a shorter digest is returned unchanged; the result never exceeds 8
bytes nor 8 characters, and on an ASCII digest bytes and characters coincide.
`"sha256:deadbeefcafef00d"` gives `"cafef00d"`. -/
theorem getLast8Chars_suffix (d : GoString) :
    (8 ≤ d.length →
        getLast8Chars d = d.drop (d.length - 8) ∧ (getLast8Chars d).length = 8
          ∧ getLast8Chars d <:+ d
          ∧ d = d.take (d.length - 8) ++ getLast8Chars d)
      ∧ (d.length < 8 → getLast8Chars d = d)
      ∧ (getLast8Chars d).length ≤ 8
      ∧ RuneCountInString (getLast8Chars d) ≤ 8
      ∧ ((∀ b ∈ d, b.toNat < 0x80) →
          RuneCountInString d = d.length
            ∧ RuneCountInString (getLast8Chars d) = (getLast8Chars d).length)
      ∧ getLast8Chars (lit "sha256:deadbeefcafef00d") = lit "cafef00d" := by
  have hle : (getLast8Chars d).length ≤ 8 := by
    unfold getLast8Chars
    split
    · rw [List.length_drop]
      omega
    · omega
  have hsub : ∀ b ∈ getLast8Chars d, b ∈ d := by
    intro b hb
    unfold getLast8Chars at hb
    split at hb
    · exact List.mem_of_mem_drop hb
    · exact hb
  refine ⟨?_, ?_, hle, le_trans (runeCount_le_length _) hle,
    fun h => ⟨runeCount_of_ascii d h, runeCount_of_ascii _ (fun b hb => h b (hsub b hb))⟩,
    by decide⟩
  · intro h
    have hg : getLast8Chars d = d.drop (d.length - 8) := by simp [getLast8Chars, h]
    refine ⟨hg, ?_, ?_, ?_⟩
    · rw [hg, List.length_drop]
      omega
    · rw [hg]
      exact List.drop_suffix _ _
    · rw [hg, List.take_append_drop]
  · intro h
    have : ¬ d.length ≥ 8 := by omega
    simp [getLast8Chars, this]

/-- Witness of C6 on a digest of 23 bytes and on one of 3 bytes. -/
theorem getLast8Chars_suffix_witness :
    (getLast8Chars (lit "sha256:0123456789abcdef")
        = (lit "sha256:0123456789abcdef").drop ((lit "sha256:0123456789abcdef").length - 8)
      ∧ (getLast8Chars (lit "sha256:0123456789abcdef")).length = 8
      ∧ getLast8Chars (lit "sha256:0123456789abcdef") <:+ lit "sha256:0123456789abcdef"
      ∧ lit "sha256:0123456789abcdef"
          = (lit "sha256:0123456789abcdef").take ((lit "sha256:0123456789abcdef").length - 8)
            ++ getLast8Chars (lit "sha256:0123456789abcdef"))
      ∧ getLast8Chars (lit "abc") = lit "abc"
      ∧ (RuneCountInString (lit "sha256:0123456789abcdef")
          = (lit "sha256:0123456789abcdef").length
        ∧ RuneCountInString (getLast8Chars (lit "sha256:0123456789abcdef"))
          = (getLast8Chars (lit "sha256:0123456789abcdef")).length) :=
  ⟨(getLast8Chars_suffix (lit "sha256:0123456789abcdef")).1 (by decide),
    (getLast8Chars_suffix (lit "abc")).2.1 (by decide),
    (getLast8Chars_suffix (lit "sha256:0123456789abcdef")).2.2.2.2.1 (by decide)⟩

/-- C5: in the state payload `latest_version` is `getLast8Chars` of the new digest and
`installed_version` equals it when the previous digest is empty, and is `getLast8Chars`
of the previous digest otherwise; the state publish of `Send` carries this payload.
New digest `"sha256:1111111122222222"` with no previous digest gives `"22222222"` twice. -/
theorem statePayload_first_seen (entry : NotifEntry) :
    latestVersion entry = getLast8Chars entry.ManifestDigest
      ∧ (entry.PrevManifestDigest = [] → installedVersion entry = latestVersion entry)
      ∧ (entry.PrevManifestDigest ≠ [] →
          installedVersion entry = getLast8Chars entry.PrevManifestDigest)
      ∧ (statePayload entry).lookup (lit "latest_version")
          = some (Json.str (latestVersion entry))
      ∧ (statePayload entry).lookup (lit "installed_version")
          = some (Json.str (installedVersion entry))
      ∧ (∀ (Marshal : Json → Except Error GoString) (c : Client) (o : Outcomes) (r : Result),
          Send Marshal c entry o = some r → ∀ ev ∈ r.trace, ev.step = Step.publishState →
            ∃ b, Marshal (statePayload entry) = Except.ok b
              ∧ ev.call = Call.Publish (stateTopic c.cfg (idOf entry.Image)) (byte c.cfg.QoS)
                  true (Payload.bytes b))
      ∧ statePayload entry0
          = Json.obj [(lit "installed_version", Json.str (lit "22222222")),
              (lit "latest_version", Json.str (lit "22222222"))] := by
  have hk : (lit "installed_version" == lit "latest_version") = false := by decide
  refine ⟨rfl, ?_, ?_, ?_, ?_, ?_, ?_⟩
  · intro h
    simp [installedVersion, h]
  · intro h
    have : entry.PrevManifestDigest.length > 0 := List.length_pos.mpr h
    simp [installedVersion, this]
  · simp [statePayload, Json.lookup, List.find?, hk]
  · simp [statePayload, Json.lookup, List.find?]
  · intro Marshal c o r hS ev hev hstep
    have hr := repoName_some entry.Image
    have hn := extractedName_some entry.Image
    obtain ⟨cfg, h⟩ := c
    obtain ⟨u, p, cn, onl, d, st⟩ := o
    cases hd : Marshal (discoveryPayload cfg entry.Image (nameOf entry.Image)
        (sanitizedImage (repoOf entry.Image))) <;>
      cases hs : Marshal (statePayload entry) <;>
      cases u <;> cases p <;> cases cn <;> cases onl <;> cases d <;> cases st <;> cases h <;>
      simp [Send, hr, hn, hd, hs] at hS <;>
      subst hS <;>
      simp at hev <;>
      (try rcases hev with rfl | rfl | rfl | rfl | rfl | rfl) <;>
      simp_all [idOf]
  · rfl

/-- Witness of C5 on an entry without and on one with a previous digest. -/
theorem statePayload_first_seen_witness :
    installedVersion entry0 = latestVersion entry0
      ∧ installedVersion ⟨lit "nginx", lit "sha256:1111111122222222", lit "sha256:aaaaaaaabbbbbbbb"⟩
          = getLast8Chars (lit "sha256:aaaaaaaabbbbbbbb")
      ∧ ∃ b, marshalStub (statePayload entry0) = Except.ok b
          ∧ Call.Publish (lit "homeassistant/update/diun/docker-io-library-nginx/state") 1 true
              (Payload.bytes (lit "json"))
            = Call.Publish (stateTopic cfg0 (idOf entry0.Image)) (byte cfg0.QoS) true
                (Payload.bytes b) :=
  ⟨(statePayload_first_seen entry0).2.1 (by decide),
    (statePayload_first_seen
      ⟨lit "nginx", lit "sha256:1111111122222222", lit "sha256:aaaaaaaabbbbbbbb"⟩).2.2.1
      (by decide),
    (statePayload_first_seen entry0).2.2.2.2.2.1 marshalStub (New cfg0) okOutcomes _ rfl
      (Event.mk Step.publishState
        (Call.Publish (lit "homeassistant/update/diun/docker-io-library-nginx/state") 1 true
          (Payload.bytes (lit "json"))))
      (by decide) rfl⟩

/-- C8: the display name is the last `/`-delimited segment of the repository path: it
holds no `/`, and the path is the name itself when it has no `/` and otherwise ends with
`/` followed by the name; it is the `name` field of the discovery payload that `Send`
publishes. `"registry.io/ns/repo"` gives `"repo"`. -/
theorem extractedName_last_segment :
    (∀ r : GoString, ∃ n, extractedName r = some n ∧ ch '/' ∉ n
        ∧ ((ch '/' ∉ r ∧ r = n) ∨ ∃ pre, r = pre ++ lit "/" ++ n))
      ∧ (∀ (cfg : NotifHomeAssistant) (imageStr n i : GoString),
          (discoveryPayload cfg imageStr n i).lookup (lit "name") = some (Json.str n))
      ∧ (∀ (Marshal : Json → Except Error GoString) (c : Client) (entry : NotifEntry)
          (o : Outcomes) (r : Result),
          Send Marshal c entry o = some r → ∀ ev ∈ r.trace, ev.step = Step.publishDiscovery →
            ∃ n b, extractedName (repoOf entry.Image) = some n
              ∧ Marshal (discoveryPayload c.cfg entry.Image n (idOf entry.Image)) = Except.ok b
              ∧ ev.call = Call.Publish (discoveryTopic c.cfg (idOf entry.Image))
                  (byte c.cfg.QoS) true (Payload.bytes b))
      ∧ extractedName (lit "registry.io/ns/repo") = some (lit "repo")
      ∧ extractedName (lit "docker.io/library/nginx") = some (lit "nginx") := by
  have hk : (lit "state_topic" == lit "name") = false := by decide
  refine ⟨?_, ?_, ?_, by decide, by decide⟩
  · intro r
    obtain ⟨n, h1, h2, h3⟩ := extractedName_spec r
    rw [← ch_slash] at h2 h3
    refine ⟨n, h1, h2, ?_⟩
    rcases h3 with h3 | ⟨pre, h3⟩
    · exact Or.inl h3
    · refine Or.inr ⟨pre, ?_⟩
      rw [lit_slash, ← ch_slash, List.append_assoc]
      exact h3
  · intro cfg imageStr n i
    simp [discoveryPayload, Json.lookup, List.find?, hk]
  · intro Marshal c entry o r hS ev hev hstep
    have hr := repoName_some entry.Image
    have hn := extractedName_some entry.Image
    refine ⟨nameOf entry.Image, ?_⟩
    obtain ⟨cfg, h⟩ := c
    obtain ⟨u, p, cn, onl, d, st⟩ := o
    cases hd : Marshal (discoveryPayload cfg entry.Image (nameOf entry.Image)
        (sanitizedImage (repoOf entry.Image))) <;>
      cases hs : Marshal (statePayload entry) <;>
      cases u <;> cases p <;> cases cn <;> cases onl <;> cases d <;> cases st <;> cases h <;>
      simp [Send, hr, hn, hd, hs] at hS <;>
      subst hS <;>
      simp at hev <;>
      (try rcases hev with rfl | rfl | rfl | rfl | rfl | rfl) <;>
      simp_all [idOf]

/-- Witness of C8: the discovery publish of a first call on
`"docker.io/library/nginx:latest"` carries the payload whose name is `"nginx"`. -/
theorem extractedName_last_segment_witness :
    ∃ n b, extractedName (repoOf entry0.Image) = some n
      ∧ marshalStub (discoveryPayload cfg0 entry0.Image n (idOf entry0.Image)) = Except.ok b
      ∧ Call.Publish (lit "homeassistant/update/diun/docker-io-library-nginx/config") 1 true
          (Payload.bytes (lit "json"))
        = Call.Publish (discoveryTopic cfg0 (idOf entry0.Image)) (byte cfg0.QoS) true
            (Payload.bytes b) :=
  extractedName_last_segment.2.2.1 marshalStub (New cfg0) entry0 okOutcomes _ rfl
    (Event.mk Step.publishDiscovery
      (Call.Publish (lit "homeassistant/update/diun/docker-io-library-nginx/config") 1 true
        (Payload.bytes (lit "json"))))
    (by decide) rfl

/-- C7: the availability topic is `{discoveryPrefix}/{component}/{nodeName}/availability`,
the discovery topic `{discoveryPrefix}/{component}/{nodeName}/{i}/config` and the state
topic `{discoveryPrefix}/{component}/{nodeName}/{i}/state` for the sanitized id `i`;
every publish of `Send` goes to the one of its step, and the last will to the
availability topic. -/
theorem topic_derivation :
    (∀ (cfg : NotifHomeAssistant) (i : GoString),
        availabilityTopic cfg
            = cfg.DiscoveryPrefix ++ lit "/" ++ cfg.Component ++ lit "/" ++ cfg.NodeName
                ++ lit "/availability"
          ∧ discoveryTopic cfg i
            = cfg.DiscoveryPrefix ++ lit "/" ++ cfg.Component ++ lit "/" ++ cfg.NodeName
                ++ lit "/" ++ i ++ lit "/config"
          ∧ stateTopic cfg i
            = cfg.DiscoveryPrefix ++ lit "/" ++ cfg.Component ++ lit "/" ++ cfg.NodeName
                ++ lit "/" ++ i ++ lit "/state")
      ∧ (∀ (Marshal : Json → Except Error GoString) (c : Client) (entry : NotifEntry)
          (o : Outcomes) (r : Result),
          Send Marshal c entry o = some r →
            ∀ ev ∈ r.trace, ∀ (t : GoString) (q : UInt8) (ret : Bool) (pl : Payload),
              ev.call = Call.Publish t q ret pl →
                (ev.step = Step.publishOnline ∧ t = availabilityTopic c.cfg)
                  ∨ (ev.step = Step.publishDiscovery
                      ∧ t = discoveryTopic c.cfg (sanitizedImage (repoOf entry.Image)))
                  ∨ (ev.step = Step.publishState
                      ∧ t = stateTopic c.cfg (sanitizedImage (repoOf entry.Image))))
      ∧ (∀ (Marshal : Json → Except Error GoString) (c : Client) (entry : NotifEntry)
          (o : Outcomes) (r : Result) (opts : ClientOptions),
          Send Marshal c entry o = some r → c.mqttClient = none →
            r.client.mqttClient = some opts → opts.WillTopic = availabilityTopic c.cfg)
      ∧ availabilityTopic cfg0 = lit "homeassistant/update/diun/availability"
      ∧ discoveryTopic cfg0 (sanitizedImage (repoOf entry0.Image))
          = lit "homeassistant/update/diun/docker-io-library-nginx/config"
      ∧ stateTopic cfg0 (sanitizedImage (repoOf entry0.Image))
          = lit "homeassistant/update/diun/docker-io-library-nginx/state" := by
  refine ⟨?_, ?_, ?_, by decide, by decide, by decide⟩
  · intro cfg i
    rw [availabilityTopic_eq, discoveryTopic_eq, stateTopic_eq]
    refine ⟨?_, ?_, ?_⟩ <;> simp only [List.append_assoc]
  · intro Marshal c entry o r hS ev hev t q ret pl hcall
    have hr := repoName_some entry.Image
    have hn := extractedName_some entry.Image
    obtain ⟨cfg, h⟩ := c
    obtain ⟨u, p, cn, onl, d, st⟩ := o
    cases hd : Marshal (discoveryPayload cfg entry.Image (nameOf entry.Image)
        (sanitizedImage (repoOf entry.Image))) <;>
      cases hs : Marshal (statePayload entry) <;>
      cases u <;> cases p <;> cases cn <;> cases onl <;> cases d <;> cases st <;> cases h <;>
      simp [Send, hr, hn, hd, hs] at hS <;>
      subst hS <;>
      simp at hev <;>
      (try rcases hev with rfl | rfl | rfl | rfl | rfl | rfl) <;>
      simp_all
  · intro Marshal c entry o r opts hS hc hopts
    have hr := repoName_some entry.Image
    have hn := extractedName_some entry.Image
    obtain ⟨cfg, h⟩ := c
    simp only at hc
    subst hc
    obtain ⟨u, p, cn, onl, d, st⟩ := o
    cases hd : Marshal (discoveryPayload cfg entry.Image (nameOf entry.Image)
        (sanitizedImage (repoOf entry.Image))) <;>
      cases hs : Marshal (statePayload entry) <;>
      cases u <;> cases p <;> cases cn <;> cases onl <;> cases d <;> cases st <;>
      simp [Send, hr, hn, hd, hs] at hS <;>
      subst hS <;>
      (try simp [clientOptions] at hopts) <;>
      (try (subst hopts; rfl))

/-- Witness of C7 on the three publishes of a first call. -/
theorem topic_derivation_witness :
    ((Step.publishOnline = Step.publishOnline
        ∧ lit "homeassistant/update/diun/availability" = availabilityTopic cfg0)
      ∨ (Step.publishOnline = Step.publishDiscovery
          ∧ lit "homeassistant/update/diun/availability"
            = discoveryTopic cfg0 (sanitizedImage (repoOf entry0.Image)))
      ∨ (Step.publishOnline = Step.publishState
          ∧ lit "homeassistant/update/diun/availability"
            = stateTopic cfg0 (sanitizedImage (repoOf entry0.Image))))
      ∧ (clientOptions cfg0 (lit "u") (lit "p")).WillTopic = availabilityTopic cfg0 :=
  ⟨topic_derivation.2.1 marshalStub (New cfg0) entry0 okOutcomes _ rfl
      (Event.mk Step.publishOnline
        (Call.Publish (lit "homeassistant/update/diun/availability") 1 true
          (Payload.str (lit "online"))))
      (by decide) _ _ _ _ rfl,
    topic_derivation.2.2.1 marshalStub (New cfg0) entry0 okOutcomes _
      (clientOptions cfg0 (lit "u") (lit "p")) rfl rfl rfl⟩

/-- C4: `Send` runs its step sequence fail-fast: it returns the error of the first step
that fails, attempts no later step, and returns no error exactly when every attempted
step succeeds; a failing credential resolution leaves the handle as it was and makes no
connect and no publish, and after a failing discovery publish the state publish is not
attempted. (`json.Marshal` does not fail on these payloads.) -/
theorem Send_fails_fast (Marshal : Json → Except Error GoString) (c : Client)
    (entry : NotifEntry) (o : Outcomes) (hM : ∀ j, ∃ b, Marshal j = Except.ok b) :
    ∃ r, Send Marshal c entry o = some r
      ∧ r.trace.map Event.step = (failFast o (plan c)).1
      ∧ r.err = (failFast o (plan c)).2
      ∧ (r.err = none ↔ ∀ s ∈ r.trace.map Event.step, o.failure s = none)
      ∧ ((o.failure Step.resolveUsername ≠ none ∨ o.failure Step.resolvePassword ≠ none) →
          r.err ≠ none ∧ r.client = c
            ∧ ∀ ev ∈ r.trace, ev.call.isConnect = false ∧ ev.call.isPublish = false)
      ∧ (o.failure Step.publishDiscovery ≠ none →
          Step.publishState ∉ r.trace.map Event.step) := by
  obtain ⟨db, hdb⟩ := hM (discoveryPayload c.cfg entry.Image (nameOf entry.Image)
    (sanitizedImage (repoOf entry.Image)))
  obtain ⟨sb, hsb⟩ := hM (statePayload entry)
  have hr := repoName_some entry.Image
  have hn := extractedName_some entry.Image
  obtain ⟨cfg, h⟩ := c
  obtain ⟨u, p, cn, onl, d, st⟩ := o
  cases u with
  | error e =>
    simp [Send, plan, failFast, Outcomes.failure, Call.isConnect, Call.isPublish]
  | ok u =>
    cases p with
    | error e =>
      simp [Send, plan, failFast, Outcomes.failure, Call.isConnect, Call.isPublish]
    | ok p =>
      cases h with
      | some opts =>
        cases d with
        | some e => simp [Send, hr, hn, hdb, hsb, plan, failFast, Outcomes.failure]
        | none => cases st <;> simp [Send, hr, hn, hdb, hsb, plan, failFast, Outcomes.failure]
      | none =>
        cases cn with
        | some e => simp [Send, hr, hn, hdb, hsb, plan, failFast, Outcomes.failure]
        | none =>
          cases onl with
          | some e => simp [Send, hr, hn, hdb, hsb, plan, failFast, Outcomes.failure]
          | none =>
            cases d with
            | some e => simp [Send, hr, hn, hdb, hsb, plan, failFast, Outcomes.failure]
            | none =>
              cases st <;> simp [Send, hr, hn, hdb, hsb, plan, failFast, Outcomes.failure]

/-- Witness of C4: a first call whose password resolution fails stops after the two
credential steps, and one whose discovery publish fails stops before the state publish. -/
theorem Send_fails_fast_witness :
    (∃ r, Send marshalStub (New cfg0) entry0 passwordFails = some r
      ∧ r.trace.map Event.step = (failFast passwordFails (plan (New cfg0))).1
      ∧ r.err = (failFast passwordFails (plan (New cfg0))).2
      ∧ (r.err = none ↔ ∀ s ∈ r.trace.map Event.step, passwordFails.failure s = none)
      ∧ ((passwordFails.failure Step.resolveUsername ≠ none
            ∨ passwordFails.failure Step.resolvePassword ≠ none) →
          r.err ≠ none ∧ r.client = New cfg0
            ∧ ∀ ev ∈ r.trace, ev.call.isConnect = false ∧ ev.call.isPublish = false)
      ∧ (passwordFails.failure Step.publishDiscovery ≠ none →
          Step.publishState ∉ r.trace.map Event.step))
      ∧ (∃ r, Send marshalStub (New cfg0) entry0 discoveryFails = some r
        ∧ r.trace.map Event.step = (failFast discoveryFails (plan (New cfg0))).1
        ∧ r.err = (failFast discoveryFails (plan (New cfg0))).2
        ∧ (r.err = none ↔ ∀ s ∈ r.trace.map Event.step, discoveryFails.failure s = none)
        ∧ ((discoveryFails.failure Step.resolveUsername ≠ none
              ∨ discoveryFails.failure Step.resolvePassword ≠ none) →
            r.err ≠ none ∧ r.client = New cfg0
              ∧ ∀ ev ∈ r.trace, ev.call.isConnect = false ∧ ev.call.isPublish = false)
        ∧ (discoveryFails.failure Step.publishDiscovery ≠ none →
            Step.publishState ∉ r.trace.map Event.step))
      ∧ (failFast passwordFails (plan (New cfg0)))
          = ([Step.resolveUsername, Step.resolvePassword], some ⟨"no such file"⟩)
      ∧ (failFast discoveryFails (plan (New cfg0)))
          = ([Step.resolveUsername, Step.resolvePassword, Step.connect, Step.publishOnline,
              Step.publishDiscovery], some ⟨"not connected"⟩) :=
  ⟨Send_fails_fast marshalStub (New cfg0) entry0 passwordFails (fun _ => ⟨lit "json", rfl⟩),
    Send_fails_fast marshalStub (New cfg0) entry0 discoveryFails (fun _ => ⟨lit "json", rfl⟩),
    by decide, by decide⟩

/-- C10: over any sequence of `Send` calls on one instance, whatever the collaborators
return, the transport sees at most one connect; a call that reaches the connect step
leaves the handle set, and every later call keeps it set and makes neither a connect nor
an `"online"` publish, also when that connect or `"online"` publish failed. -/
theorem connect_at_most_once (Marshal : Json → Except Error GoString) (c : Client)
    (calls : List (NotifEntry × Outcomes)) :
    ∃ rs, SendSeq Marshal c calls = some rs ∧ rs.length = calls.length
      ∧ (rs.map Result.connects).sum ≤ 1
      ∧ (c.mqttClient ≠ none → ∀ r ∈ rs, r.client.mqttClient ≠ none ∧ r.reuses)
      ∧ (∀ (pre : List Result) (r : Result) (post : List Result), rs = pre ++ r :: post →
          (r.connects = 1 ∨ Step.connect ∈ r.trace.map Event.step) →
            r.client.mqttClient ≠ none
              ∧ ∀ r2 ∈ post, r2.client.mqttClient ≠ none ∧ r2.reuses) := by
  induction calls generalizing c with
  | nil =>
    refine ⟨[], rfl, rfl, by simp, by simp, ?_⟩
    intro pre r post h
    simp at h
  | cons call rest ih =>
    obtain ⟨entry, o⟩ := call
    obtain ⟨r, hS, h1, h2, h3⟩ := Send_step Marshal c entry o
    obtain ⟨rs, hSS, hl, hsum, hre, hsplit⟩ := ih r.client
    refine ⟨r :: rs, by simp [SendSeq, hS, hSS], by simp [hl], ?_, ?_, ?_⟩
    · simp only [List.map_cons, List.sum_cons]
      by_cases hc : r.connects = 1
      · have hz := connects_sum_zero rs (fun x hx => (hre (h2 (Or.inl hc)) x hx).2)
        omega
      · omega
    · intro hc x hx
      have hrc := h3 hc
      rcases List.mem_cons.mp hx with rfl | hx
      · exact ⟨by rw [hrc.1]; exact hc, hrc.2⟩
      · exact hre (by rw [hrc.1]; exact hc) x hx
    · intro pre x post heq hx
      cases pre with
      | nil =>
        simp only [List.nil_append, List.cons.injEq] at heq
        obtain ⟨rfl, rfl⟩ := heq
        exact ⟨h2 hx, hre (h2 hx)⟩
      | cons y pre2 =>
        simp only [List.cons_append, List.cons.injEq] at heq
        exact hsplit pre2 x post heq.2 hx

/-- Witness of C10: after a first call whose connect fails, a second call makes neither a
connect nor an `"online"` publish. -/
theorem connect_at_most_once_witness :
    ∃ rs, SendSeq marshalStub (New cfg0) [(entry0, connectFails), (entry1, okOutcomes)]
        = some rs
      ∧ rs.length = [(entry0, connectFails), (entry1, okOutcomes)].length
      ∧ (rs.map Result.connects).sum ≤ 1
      ∧ ((New cfg0).mqttClient ≠ none → ∀ r ∈ rs, r.client.mqttClient ≠ none ∧ r.reuses)
      ∧ (∀ (pre : List Result) (r : Result) (post : List Result), rs = pre ++ r :: post →
          (r.connects = 1 ∨ Step.connect ∈ r.trace.map Event.step) →
            r.client.mqttClient ≠ none
              ∧ ∀ r2 ∈ post, r2.client.mqttClient ≠ none ∧ r2.reuses) :=
  connect_at_most_once marshalStub (New cfg0) [(entry0, connectFails), (entry1, okOutcomes)]

/-- C3: two sequential `Send` calls on a fresh instance in which every step succeeds:
the first makes the connect, the `"online"` publish on the availability topic, the
discovery publish and the state publish, in this order; the second reuses the handle
and makes only its discovery and state publishes. The transport sees one connect, one
`"online"` publish, two discovery publishes and two state publishes. -/
theorem Send_twice_reuses_connection (Marshal : Json → Except Error GoString)
    (cfg : NotifHomeAssistant) (e1 e2 : NotifEntry) (o1 o2 : Outcomes)
    (hM : ∀ j, ∃ b, Marshal j = Except.ok b)
    (h1 : ∀ s, o1.failure s = none) (h2 : ∀ s, o2.failure s = none) :
    ∃ (r1 r2 : Result) (u1 p1 d1 s1 d2 s2 : GoString),
      SendSeq Marshal (New cfg) [(e1, o1), (e2, o2)] = some [r1, r2]
        ∧ r1.err = none ∧ r2.err = none
        ∧ o1.username = Except.ok u1 ∧ o1.password = Except.ok p1
        ∧ Marshal (discoveryPayload cfg e1.Image (nameOf e1.Image) (idOf e1.Image))
            = Except.ok d1
        ∧ Marshal (statePayload e1) = Except.ok s1
        ∧ Marshal (discoveryPayload cfg e2.Image (nameOf e2.Image) (idOf e2.Image))
            = Except.ok d2
        ∧ Marshal (statePayload e2) = Except.ok s2
        ∧ r1.trace.map Event.call
            = [Call.GetSecret cfg.Username cfg.UsernameFile,
                Call.GetSecret cfg.Password cfg.PasswordFile,
                Call.Connect,
                Call.Publish (availabilityTopic cfg) (byte cfg.QoS) true
                  (Payload.str (lit "online")),
                Call.Publish (discoveryTopic cfg (idOf e1.Image)) (byte cfg.QoS) true
                  (Payload.bytes d1),
                Call.Publish (stateTopic cfg (idOf e1.Image)) (byte cfg.QoS) true
                  (Payload.bytes s1)]
        ∧ r1.trace.map Event.step
            = [Step.resolveUsername, Step.resolvePassword, Step.connect, Step.publishOnline,
                Step.publishDiscovery, Step.publishState]
        ∧ r2.trace.map Event.call
            = [Call.GetSecret cfg.Username cfg.UsernameFile,
                Call.GetSecret cfg.Password cfg.PasswordFile,
                Call.Publish (discoveryTopic cfg (idOf e2.Image)) (byte cfg.QoS) true
                  (Payload.bytes d2),
                Call.Publish (stateTopic cfg (idOf e2.Image)) (byte cfg.QoS) true
                  (Payload.bytes s2)]
        ∧ r2.trace.map Event.step
            = [Step.resolveUsername, Step.resolvePassword, Step.publishDiscovery,
                Step.publishState]
        ∧ r1.client.mqttClient = some (clientOptions cfg u1 p1)
        ∧ r2.client = r1.client
        ∧ ((r1.trace ++ r2.trace).filter (fun ev => ev.call.isConnect)).length = 1
        ∧ ((r1.trace ++ r2.trace).filter (fun ev => ev.call.isOnline)).length = 1
        ∧ ((r1.trace ++ r2.trace).filter (fun ev => ev.call.isPublish)).length = 5
        ∧ ((r1.trace ++ r2.trace).map Event.step).count Step.publishDiscovery = 2
        ∧ ((r1.trace ++ r2.trace).map Event.step).count Step.publishState = 2 := by
  obtain ⟨d1, hd1⟩ := hM (discoveryPayload cfg e1.Image (nameOf e1.Image)
    (sanitizedImage (repoOf e1.Image)))
  obtain ⟨s1, hs1⟩ := hM (statePayload e1)
  obtain ⟨d2, hd2⟩ := hM (discoveryPayload cfg e2.Image (nameOf e2.Image)
    (sanitizedImage (repoOf e2.Image)))
  obtain ⟨s2, hs2⟩ := hM (statePayload e2)
  obtain ⟨ua, pa, cna, onla, da, sta⟩ := o1
  obtain ⟨ub, pb, cnb, onlb, db, stb⟩ := o2
  have a1 := h1 Step.resolveUsername
  have a2 := h1 Step.resolvePassword
  have a3 := h1 Step.connect
  have a4 := h1 Step.publishOnline
  have a5 := h1 Step.publishDiscovery
  have a6 := h1 Step.publishState
  have b1 := h2 Step.resolveUsername
  have b2 := h2 Step.resolvePassword
  have b5 := h2 Step.publishDiscovery
  have b6 := h2 Step.publishState
  simp only [Outcomes.failure] at a3 a4 a5 a6 b5 b6
  subst a3 a4 a5 a6 b5 b6
  cases ua with
  | error e => simp [Outcomes.failure] at a1
  | ok u1 =>
    cases pa with
    | error e => simp [Outcomes.failure] at a2
    | ok p1 =>
      cases ub with
      | error e => simp [Outcomes.failure] at b1
      | ok u2 =>
        cases pb with
        | error e => simp [Outcomes.failure] at b2
        | ok p2 =>
          have hS1 := Send_first_ok Marshal cfg e1 u1 p1 d1 s1 hd1 hs1
          have hS2 := Send_reuse_ok Marshal cfg (clientOptions cfg u1 p1) e2 u2 p2 d2 s2
            cnb onlb hd2 hs2
          refine ⟨⟨none, ⟨cfg, some (clientOptions cfg u1 p1)⟩, firstTrace cfg e1 d1 s1⟩,
            ⟨none, ⟨cfg, some (clientOptions cfg u1 p1)⟩, reuseTrace cfg e2 d2 s2⟩,
            u1, p1, d1, s1, d2, s2, ?_, ?_⟩
          · simp only [SendSeq, New, hS1, hS2]
          · simp [hd1, hs1, hd2, hs2, idOf, firstTrace, reuseTrace, Call.isConnect,
              Call.isOnline, Call.isPublish]

/-- Witness of C3: two successful calls on a fresh instance, for two images. -/
theorem Send_twice_reuses_connection_witness :
    ∃ (r1 r2 : Result) (u1 p1 d1 s1 d2 s2 : GoString),
      SendSeq marshalStub (New cfg0) [(entry0, okOutcomes), (entry1, okOutcomes)]
          = some [r1, r2]
        ∧ r1.err = none ∧ r2.err = none
        ∧ okOutcomes.username = Except.ok u1 ∧ okOutcomes.password = Except.ok p1
        ∧ marshalStub (discoveryPayload cfg0 entry0.Image (nameOf entry0.Image)
            (idOf entry0.Image)) = Except.ok d1
        ∧ marshalStub (statePayload entry0) = Except.ok s1
        ∧ marshalStub (discoveryPayload cfg0 entry1.Image (nameOf entry1.Image)
            (idOf entry1.Image)) = Except.ok d2
        ∧ marshalStub (statePayload entry1) = Except.ok s2
        ∧ r1.trace.map Event.call
            = [Call.GetSecret cfg0.Username cfg0.UsernameFile,
                Call.GetSecret cfg0.Password cfg0.PasswordFile,
                Call.Connect,
                Call.Publish (availabilityTopic cfg0) (byte cfg0.QoS) true
                  (Payload.str (lit "online")),
                Call.Publish (discoveryTopic cfg0 (idOf entry0.Image)) (byte cfg0.QoS) true
                  (Payload.bytes d1),
                Call.Publish (stateTopic cfg0 (idOf entry0.Image)) (byte cfg0.QoS) true
                  (Payload.bytes s1)]
        ∧ r1.trace.map Event.step
            = [Step.resolveUsername, Step.resolvePassword, Step.connect, Step.publishOnline,
                Step.publishDiscovery, Step.publishState]
        ∧ r2.trace.map Event.call
            = [Call.GetSecret cfg0.Username cfg0.UsernameFile,
                Call.GetSecret cfg0.Password cfg0.PasswordFile,
                Call.Publish (discoveryTopic cfg0 (idOf entry1.Image)) (byte cfg0.QoS) true
                  (Payload.bytes d2),
                Call.Publish (stateTopic cfg0 (idOf entry1.Image)) (byte cfg0.QoS) true
                  (Payload.bytes s2)]
        ∧ r2.trace.map Event.step
            = [Step.resolveUsername, Step.resolvePassword, Step.publishDiscovery,
                Step.publishState]
        ∧ r1.client.mqttClient = some (clientOptions cfg0 u1 p1)
        ∧ r2.client = r1.client
        ∧ ((r1.trace ++ r2.trace).filter (fun ev => ev.call.isConnect)).length = 1
        ∧ ((r1.trace ++ r2.trace).filter (fun ev => ev.call.isOnline)).length = 1
        ∧ ((r1.trace ++ r2.trace).filter (fun ev => ev.call.isPublish)).length = 5
        ∧ ((r1.trace ++ r2.trace).map Event.step).count Step.publishDiscovery = 2
        ∧ ((r1.trace ++ r2.trace).map Event.step).count Step.publishState = 2 :=
  Send_twice_reuses_connection marshalStub cfg0 entry0 entry1 okOutcomes okOutcomes
    (fun _ => ⟨lit "json", rfl⟩) (fun s => by cases s <;> rfl) (fun s => by cases s <;> rfl)

/-- C9: on a reference whose registry host has a port the extraction stops at the colon of
the port: `"localhost:5000/ns/repo:1.2"` gives `"localhost"`, not
`"localhost:5000/ns/repo"`, and two images of that registry get one id and one name. -/
theorem repoName_registry_port :
    repoName (lit "localhost:5000/ns/repo:1.2") = some (lit "localhost")
      ∧ repoName (lit "localhost:5000/ns/repo:1.2") ≠ some (lit "localhost:5000/ns/repo")
      ∧ idOf (lit "localhost:5000/ns/repo:1.2") = lit "localhost"
      ∧ nameOf (lit "localhost:5000/ns/repo:1.2") = lit "localhost"
      ∧ idOf (lit "localhost:5000/ns/repo:1.2") = idOf (lit "localhost:5000/other/app:2.0")
      ∧ discoveryTopic cfg0 (idOf (lit "localhost:5000/ns/repo:1.2"))
          = discoveryTopic cfg0 (idOf (lit "localhost:5000/other/app:2.0")) := by
  decide

end Homeassistant
